import Mathlib

/-!
Verification development for the DreamQuill provider-adapter and streaming
session core.  The definitions below are shallow embeddings of the Rust
functions in `packages/core-sdk/src/llm.rs`, `packages/core-sdk/src/db.rs`
and `apps/desktop/src-tauri/src/main.rs`; theorems settle the frozen
claims about them.
-/

/-! ## JSON value model

Mirrors the fragment of `serde_json::Value` the code uses: `get(key)` on
objects, `get(index)` on arrays, `as_str`, `as_array`.  Numbers are kept
abstract as integers (no claim depends on numeric semantics). -/

inductive Json where
  | null
  | bool (b : Bool)
  | num (n : Int)
  | str (s : String)
  | arr (items : List Json)
  | obj (fields : List (String × Json))

/-- `Value::get(key)`: field lookup on an object, `None` otherwise. -/
def Json.get (v : Json) (key : String) : Option Json :=
  match v with
  | .obj fields => (fields.find? (fun f => f.1 == key)).map (fun f => f.2)
  | _ => none

/-- `Value::get(index)`: index lookup on an array, `None` otherwise. -/
def Json.idx (v : Json) (i : Nat) : Option Json :=
  match v with
  | .arr items => items.get? i
  | _ => none

/-- `Value::as_str`. -/
def Json.asStr : Json → Option String
  | .str s => some s
  | _ => none

/-- `Value::as_array`. -/
def Json.asArr : Json → Option (List Json)
  | .arr items => some items
  | _ => none

/-! ## llm.rs: per-block delta extraction and response normalizers -/

/-- `parse_openai_delta` from `llm.rs`.  The argument is the result of
`serde_json::from_str(line).ok()` (`none` when the data line is not valid
JSON); the body then navigates `choices[0].delta.content` and keeps the
value only when it is a string. -/
def parse_openai_delta (parsed : Option Json) : Option String :=
  match parsed with
  | none => none
  | some v =>
    ((((v.get "choices").bind (fun c => c.idx 0)).bind
        (fun c => c.get "delta")).bind
        (fun d => d.get "content")).bind Json.asStr

/-- The JSON path `choices[0].delta.content` by itself (used to state what
`parse_openai_delta` extracts). -/
def openaiDeltaField (v : Json) : Option Json :=
  (((v.get "choices").bind (fun c => c.idx 0)).bind
      (fun c => c.get "delta")).bind
      (fun d => d.get "content")

/-- The text joined from the string `text` parts of a `parts` array, as in
`extract_gemini_content`. -/
def geminiJoinParts (parts : List Json) : String :=
  String.join (parts.filterMap (fun p => (p.get "text").bind Json.asStr))

/-- `extract_gemini_content` from `llm.rs`: if `candidates` is an array with
a first element whose `content.parts` is an array, join its string `text`
parts; otherwise fall back to the first candidate's `output` string field;
otherwise to the top-level `text` string field; otherwise the empty
string. -/
def extract_gemini_content (v : Json) : String :=
  let bottom := ((v.get "text").bind Json.asStr).getD ""
  match (v.get "candidates").bind Json.asArr with
  | some candidates =>
    match candidates.head? with
    | some first =>
      let afterParts :=
        match (first.get "output").bind Json.asStr with
        | some t => t
        | none => bottom
      match first.get "content" with
      | some content =>
        match (content.get "parts").bind Json.asArr with
        | some parts => geminiJoinParts parts
        | none => afterParts
      | none => afterParts
    | none => bottom
  | none => bottom

/-- Decides, following the claim wording for the Gemini fallback chain,
that neither the parts route nor the candidate `output` route applies to
`v`, so `extract_gemini_content` must land on the final `text` fallback. -/
def geminiNoCandidateText (v : Json) : Bool :=
  match (v.get "candidates").bind Json.asArr with
  | none => true
  | some [] => true
  | some (first :: _) =>
    (match first.get "content" with
     | some content => ((content.get "parts").bind Json.asArr).isNone
     | none => true)
    && ((first.get "output").bind Json.asStr).isNone

/-! ## llm.rs: SSE framing (`stream_openai`)

The transport delivers raw byte chunks.  Bytes are modelled as `List Char`
(`\n` is a single byte and never occurs inside a multi-byte UTF-8
sequence, so char-level framing coincides with byte-level framing on
valid UTF-8, and `String::from_utf8_lossy` is the identity there).
The JSON step `serde_json::from_str(line).ok()` composed with the
`choices[0].delta.content` navigation is abstracted as a parameter
`parse : List Char → Option String`; `parse_openai_delta` above is its
concrete JSON-level body. -/

/-- `find_double_newline` from `llm.rs`:
`buf.windows(2).position(|w| w == b"\n\n")`. -/
def find_double_newline : List Char → Option Nat
  | c1 :: c2 :: rest =>
    if c1 = '\n' && c2 = '\n' then some 0
    else (find_double_newline (c2 :: rest)).map (· + 1)
  | _ => none

/-- Split on the newline byte (every occurrence delimits). -/
def splitNL : List Char → List (List Char)
  | [] => [[]]
  | c :: rest =>
    match splitNL rest with
    | [] => [[c]]
    | l :: ls => if c = '\n' then [] :: l :: ls else (c :: l) :: ls

/-- Strip one trailing carriage return, as Rust `str::lines` does per line. -/
def chompCR (l : List Char) : List Char :=
  if l.getLast? = some '\r' then l.dropLast else l

/-- Rust `str::lines`: split on `\n`, drop a final empty segment (produced
when the text ends in a newline, or for the empty text), strip one
trailing `\r` from each line. -/
def rustLines (b : List Char) : List (List Char) :=
  let segs := splitNL b
  let segs := if segs.getLast? = some [] then segs.dropLast else segs
  segs.map chompCR

/-- Rust `str::trim` restricted to the ASCII whitespace subset
(space, tab, carriage return, newline) — the only whitespace the
SSE framing can contain. -/
def trimBytes (l : List Char) : List Char :=
  ((l.dropWhile Char.isWhitespace).reverse.dropWhile Char.isWhitespace).reverse

/-- `extract_data_line` from `llm.rs`: scan the block's lines for the first
one that, after `trim_start`, begins with `data:`; return the rest of that
line, trimmed. -/
def extract_data_line (block : List Char) : Option (List Char) :=
  (rustLines block).findSome? (fun raw =>
    let l := raw.dropWhile Char.isWhitespace
    if l.take 5 = "data:".toList then some (trimBytes (l.drop 5)) else none)

/-- The inner `loop` of `stream_openai`'s generator, with explicit fuel:
repeatedly drain the first double-newline-delimited block from the buffer;
a `[DONE]` data line breaks out of the loop (only this inner loop — the
generator itself keeps running); a parsed delta is yielded; otherwise the
block contributes nothing.  Each drained block removes at least two bytes,
so fuel `buf.length` never runs out (`drainBlocksF_fuel` below); the fuel
only makes the recursion structural. -/
def drainBlocksF (parse : List Char → Option String) :
    Nat → List Char → List String × List Char
  | 0, buf => ([], buf)
  | fuel + 1, buf =>
    match find_double_newline buf with
    | none => ([], buf)
    | some pos =>
      let block := buf.take (pos + 2)
      let rest := buf.drop (pos + 2)
      match extract_data_line block with
      | some line =>
        if trimBytes line = "[DONE]".toList then ([], rest)
        else
          match parse line with
          | some delta =>
            let p := drainBlocksF parse fuel rest
            (delta :: p.1, p.2)
          | none => drainBlocksF parse fuel rest
      | none => drainBlocksF parse fuel rest

/-- The inner drain loop at its natural fuel. -/
def drainBlocks (parse : List Char → Option String) (buf : List Char) :
    List String × List Char :=
  drainBlocksF parse buf.length buf

/-- The end-of-input step of `stream_openai`: if unconsumed bytes remain,
one final data-line extraction against the whole remainder, yielding at
most one more delta unless the line is the `[DONE]` sentinel. -/
def finalFlush (parse : List Char → Option String) (buf : List Char) :
    List String :=
  if buf = [] then []
  else
    match extract_data_line buf with
    | some line =>
      if trimBytes line = "[DONE]".toList then [] else (parse line).toList
    | none => []

/-- The outer `while let Some(chunk)` loop of `stream_openai`: append each
transport chunk to the buffer, drain complete blocks, and at end-of-input
run the final flush.  Returns the deltas yielded, in order. -/
def runChunks (parse : List Char → Option String) :
    List (List Char) → List Char → List String
  | [], buf => finalFlush parse buf
  | c :: cs, buf =>
    let p := drainBlocks parse (buf ++ c)
    p.1 ++ runChunks parse cs p.2

/-- The delta sequence `stream_openai` emits for a given chunked transport
input (starting from the empty buffer). -/
def stream_openai_deltas (parse : List Char → Option String)
    (chunks : List (List Char)) : List String :=
  runChunks parse chunks []

/-! ## llm.rs: provider kinds and gateway dispatch -/

/-- Provider record from `models.rs` (fields the adapters read). -/
structure Provider where
  id : Int
  name : String
  api_base : String
  api_key : String
  model : String
  provider_type : String
  secret_alias : Option String
deriving DecidableEq

inductive ProviderKind where
  | OpenAI
  | OpenAIResponse
  | Claude
  | Gemini
deriving DecidableEq

/-- Rust `str::to_ascii_lowercase`: `Char.toLower` lowercases exactly the
ASCII range, applied to each character. -/
def toAsciiLowercase (s : String) : String :=
  String.mk (s.data.map Char.toLower)

/-- `provider_kind` from `llm.rs`: ASCII-case-insensitive match on the
`provider_type` string, defaulting to `OpenAI` for anything
unrecognized. -/
def provider_kind (provider_type : String) : ProviderKind :=
  let s := toAsciiLowercase provider_type
  if s = "claude" || s = "anthropic" then ProviderKind.Claude
  else if s = "gemini" || s = "google" then ProviderKind.Gemini
  else if s = "openai-response" then ProviderKind.OpenAIResponse
  else ProviderKind.OpenAI

/-- The code path a gateway operation dispatches to. -/
inductive DispatchPath where
  | openaiPath
  | claudePath
  | geminiPath
  | fallbackOnce
deriving DecidableEq

/-- The match in `chat_once`: OpenAI and OpenAIResponse share the OpenAI
code path, Claude and Gemini have their own. -/
def chat_once_path (provider_type : String) : DispatchPath :=
  match provider_kind provider_type with
  | .OpenAI | .OpenAIResponse => .openaiPath
  | .Claude => .claudePath
  | .Gemini => .geminiPath

/-- The match in `stream_chat`: OpenAI kinds call `stream_openai`; every
other kind takes the degenerate one-shot fallback. -/
def stream_chat_path (provider_type : String) : DispatchPath :=
  match provider_kind provider_type with
  | .OpenAI | .OpenAIResponse => .openaiPath
  | _ => .fallbackOnce

/-- The match in `list_models`. -/
def list_models_path (provider_type : String) : DispatchPath :=
  match provider_kind provider_type with
  | .OpenAI | .OpenAIResponse => .openaiPath
  | .Claude => .claudePath
  | .Gemini => .geminiPath

/-- `stream_chat` from `llm.rs`, as the delta sequence it produces.
Network effects are abstracted by its two inputs: `chatOnceRes` is the
outcome `chat_once` would return for the same provider and messages, and
`openaiStream` the delta sequence `stream_openai` would emit.  For
non-OpenAI kinds the body awaits `chat_once` (an error propagates as the
function's error) and yields the full text as one delta unless it is
empty. -/
def stream_chat (provider_type : String)
    (chatOnceRes : Except String String)
    (openaiStream : List String) : Except String (List String) :=
  match provider_kind provider_type with
  | .OpenAI | .OpenAIResponse => .ok openaiStream
  | _ =>
    match chatOnceRes with
    | .error e => .error e
    | .ok full => .ok (if full = "" then [] else [full])

/-! ## main.rs: stream registry (`StreamRegistry`) -/

/-- The process-wide stream registry of `main.rs`: a map from stream id to
that session's cancellation token, plus the set of tokens whose `cancel()`
has been called.  Tokens are named by numbers; the `HashMap` keeps at most
one entry per id, modelled here by key-unique association-list
operations. -/
structure StreamRegistry where
  entries : List (String × Nat)
  cancelled : List Nat
deriving DecidableEq

/-- `HashMap::remove`-style deletion of a key's entry. -/
def removeEntry (es : List (String × Nat)) (sid : String) :
    List (String × Nat) :=
  es.filter (fun e => !(e.1 == sid))

/-- The token registered under an id, if any. -/
def lookupToken (es : List (String × Nat)) (sid : String) : Option Nat :=
  (es.find? (fun e => e.1 == sid)).map (fun e => e.2)

/-- `StreamRegistry::cancel` from `main.rs`: remove the id's entry; if one
was present, call `cancel()` on its token; otherwise do nothing. -/
def StreamRegistry.cancel (s : StreamRegistry) (sid : String) :
    StreamRegistry :=
  match lookupToken s.entries sid with
  | some t => ⟨removeEntry s.entries sid, t :: s.cancelled⟩
  | none => s

/-- `StreamRegistry::remove` from `main.rs`: drop the id's entry without
signalling its token. -/
def StreamRegistry.remove (s : StreamRegistry) (sid : String) :
    StreamRegistry :=
  ⟨removeEntry s.entries sid, s.cancelled⟩

/-- The `dq_cancel_stream` Tauri command: delegates to
`StreamRegistry::cancel` and always returns `Ok(())`. -/
def dq_cancel_stream (s : StreamRegistry) (sid : String) :
    Except String StreamRegistry :=
  .ok (s.cancel sid)

/-! ## main.rs: streaming session task (`dq_send_chat_stream`'s spawn)

The background task's interaction with the outside world is captured by a
schedule: which arm of each `tokio::select!` iteration wins (cancellation,
a delta, a stream error, or stream end), whether `stream_chat` started at
all, and what `chat_once` returns on the non-streaming paths.  The task
itself is then a pure function from that schedule to the events it emits,
the assistant turns it persists, and the registry update it performs. -/

/-- Events the background task sends to the event sink
(`dq:log` / `dq:chunk` / `dq:error` / `dq:end`). -/
inductive Ev where
  | log (msg : String)
  | chunk (delta : String)
  | error (msg : String)
  | evEnd
deriving DecidableEq

/-- One iteration's winner in the `tokio::select!` race: the cancellation
token fires, the stream yields `Some(Ok(delta))` or `Some(Err(e))`, or the
stream is exhausted (`None`). -/
inductive LoopEvent where
  | cancelFires
  | delta (s : String)
  | streamErr (e : String)
  | streamEnd
deriving DecidableEq

/-- Outcome of a `chat_once` call. -/
inductive ChatOutcome where
  | ok (full : String)
  | err (e : String)
deriving DecidableEq

/-- How the task's top-level branches resolve: `prefer_stream` with
`stream_chat` returning a stream driven by `trace`; `prefer_stream` with
`stream_chat` failing to start, followed by the fallback `chat_once`
(with the cancellation flag sampled at its check); or `prefer_stream =
false` with a direct `chat_once`. -/
inductive StartCfg where
  | streamOk (trace : List LoopEvent)
  | streamFail (cancelledAtCheck : Bool) (fallback : ChatOutcome)
  | direct (cancelledAtCheck : Bool) (result : ChatOutcome)
deriving DecidableEq

/-- The `loop { tokio::select! { ... } }` body: returns the events emitted
and the final accumulation buffer.  Cancellation emits a log and breaks;
a delta is appended to the buffer and emitted as a chunk; a stream error
emits an error event and breaks; stream end breaks silently.  A schedule
that runs out behaves like stream end. -/
def runLoop : List LoopEvent → String → List Ev × String
  | [], buf => ([], buf)
  | .cancelFires :: _, buf => ([.log "用户已取消当前回复"], buf)
  | .delta s :: rest, buf =>
    let p := runLoop rest (buf ++ s)
    (.chunk s :: p.1, p.2)
  | .streamErr e :: _, buf => ([.error e], buf)
  | .streamEnd :: _, buf => ([], buf)

/-- The task body before finalization: the events emitted and the final
accumulation buffer, per top-level branch of `dq_send_chat_stream`'s
spawned task. -/
def runSession : StartCfg → List Ev × String
  | .streamOk trace => runLoop trace ""
  | .streamFail cancelledAtCheck fallback =>
    match fallback with
    | .ok full =>
      if cancelledAtCheck then ([], "")
      else if full = "" then ([.error "模型未返回任何内容"], "")
      else ([.chunk full], full)
    | .err e2 => ([.error ("chat_once failed: " ++ e2)], "")
  | .direct cancelledAtCheck result =>
    match result with
    | .ok full =>
      if cancelledAtCheck then ([], "")
      else if full = "" then ([.error "模型未返回任何内容"], "")
      else ([.chunk full], full)
    | .err e => ([.error e], "")

/-- What one run of the background task produces: the event sequence, the
assistant turns inserted into the store, and the registry after the task's
`registry.remove`. -/
structure SessionResult where
  events : List Ev
  persisted : List String
  registryAfter : StreamRegistry
deriving DecidableEq

/-- The whole spawned task of `dq_send_chat_stream`: run the session body,
then the unconditional tail — persist the buffer as one assistant turn if
non-empty, remove this session's registry entry, emit `dq:end`. -/
def dq_send_chat_stream_task (cfg : StartCfg) (reg : StreamRegistry)
    (sid : String) : SessionResult :=
  let p := runSession cfg
  { events := p.1 ++ [.evEnd]
    persisted := if p.2 = "" then [] else [p.2]
    registryAfter := reg.remove sid }

/-- The deltas carried by the `chunk` events of an event sequence. -/
def chunkDeltas (evs : List Ev) : List String :=
  evs.filterMap (fun e => match e with | .chunk s => some s | _ => none)

/-! ## db.rs: `retry_on_locked` -/

/-- The SQLite result codes the retry helper inspects. -/
inductive SqliteCode where
  | databaseBusy
  | databaseLocked
  | otherCode (n : Nat)
deriving DecidableEq

/-- A `rusqlite` error: either an `Error::SqliteFailure` carrying a result
code, or any other error variant. -/
inductive DbError where
  | sqliteFailure (code : SqliteCode) (msg : Option String)
  | otherError (tag : Nat)
deriving DecidableEq

/-- The guard of `retry_on_locked`'s retry arm:
`Error::SqliteFailure(err, _)` with `err.code` busy or locked. -/
def isLockErr : DbError → Bool
  | .sqliteFailure .databaseBusy _ => true
  | .sqliteFailure .databaseLocked _ => true
  | _ => false

/-- The loop of `retry_on_locked`, `for attempt in 0..=MAX_RETRIES`, with
the remaining retries (`MAX_RETRIES - attempt`) as the recursion measure.
`act attempt` is what the closure returns on that attempt.  Returns the
final outcome together with the list of backoff delays slept, each
`200 * (attempt + 1)` milliseconds. -/
def retryGo {α : Type} (act : Nat → Except DbError α) (attempt : Nat) :
    Nat → Except DbError α × List Nat
  | 0 =>
    (match act attempt with
     | .ok v => .ok v
     | .error e => .error e, [])
  | retriesLeft + 1 =>
    match act attempt with
    | .ok v => (.ok v, [])
    | .error e =>
      if isLockErr e then
        let p := retryGo act (attempt + 1) retriesLeft
        (p.1, 200 * (attempt + 1) :: p.2)
      else (.error e, [])

/-- `retry_on_locked` from `db.rs`: at most `MAX_RETRIES = 5` retries
after the initial attempt. -/
def retry_on_locked {α : Type} (act : Nat → Except DbError α) :
    Except DbError α × List Nat :=
  retryGo act 0 5

/-! ## Helper lemmas -/

/-- A found double-newline position lies inside the buffer. -/
theorem find_double_newline_le {buf : List Char} {pos : Nat}
    (h : find_double_newline buf = some pos) : pos + 2 ≤ buf.length := by
  induction buf generalizing pos with
  | nil => simp [find_double_newline] at h
  | cons c1 t ih =>
    cases t with
    | nil => simp [find_double_newline] at h
    | cons c2 rest =>
      rw [find_double_newline] at h
      by_cases hnl : (c1 = '\n' && c2 = '\n') = true
      · rw [if_pos hnl] at h
        cases h
        simp only [List.length_cons]
        omega
      · rw [if_neg hnl] at h
        rcases Option.map_eq_some'.mp h with ⟨q, hq, rfl⟩
        have := ih hq
        simp only [List.length_cons] at this ⊢
        omega

/-- The first double-newline of a buffer is still the first one after
appending more bytes. -/
theorem find_double_newline_append {b : List Char} {pos : Nat}
    (s : List Char) (h : find_double_newline b = some pos) :
    find_double_newline (b ++ s) = some pos := by
  induction b generalizing pos with
  | nil => simp [find_double_newline] at h
  | cons c1 t ih =>
    cases t with
    | nil => simp [find_double_newline] at h
    | cons c2 rest =>
      rw [find_double_newline] at h
      rw [List.cons_append, List.cons_append, find_double_newline]
      by_cases hnl : (c1 = '\n' && c2 = '\n') = true
      · rw [if_pos hnl] at h ⊢
        exact h
      · rw [if_neg hnl] at h ⊢
        rcases Option.map_eq_some'.mp h with ⟨q, hq, rfl⟩
        have := ih hq
        rw [List.cons_append] at this
        rw [this]
        rfl

/-- The drain loop does not depend on the fuel, as long as the fuel covers
the buffer length: every drained block removes at least two bytes. -/
theorem drainBlocksF_fuel (parse : List Char → Option String) :
    ∀ (f₁ f₂ : Nat) (buf : List Char), buf.length ≤ f₁ → buf.length ≤ f₂ →
      drainBlocksF parse f₁ buf = drainBlocksF parse f₂ buf := by
  intro f₁
  induction f₁ with
  | zero =>
    intro f₂ buf h1 _
    have hb : buf = [] := List.length_eq_zero.mp (Nat.le_zero.mp h1)
    subst hb
    cases f₂ with
    | zero => rfl
    | succ g => simp [drainBlocksF, find_double_newline]
  | succ g1 ih =>
    intro f₂ buf h1 h2
    cases f₂ with
    | zero =>
      have hb : buf = [] := List.length_eq_zero.mp (Nat.le_zero.mp h2)
      subst hb
      simp [drainBlocksF, find_double_newline]
    | succ g2 =>
      cases hf : find_double_newline buf with
      | none => simp only [drainBlocksF, hf]
      | some pos =>
        have hle : pos + 2 ≤ buf.length := find_double_newline_le hf
        have hrest : (buf.drop (pos + 2)).length ≤ g1 := by
          simp only [List.length_drop]
          omega
        have hrest2 : (buf.drop (pos + 2)).length ≤ g2 := by
          simp only [List.length_drop]
          omega
        have heq := ih g2 (buf.drop (pos + 2)) hrest hrest2
        simp only [drainBlocksF, hf]
        cases extract_data_line (buf.take (pos + 2)) with
        | none => exact heq
        | some line =>
          by_cases hdone : trimBytes line = "[DONE]".toList
          · simp [hdone]
          · simp only [if_neg hdone]
            cases parse line with
            | none => exact heq
            | some delta => simp [heq]

/-- Draining a buffer that starts with one complete block whose data line
does not parse (and is not the sentinel) proceeds exactly as if the block
were not there. -/
theorem drainBlocks_skips_unparsed_block
    (parse : List Char → Option String) (B s line : List Char) (pos : Nat)
    (hfind : find_double_newline B = some pos)
    (hlen : B.length = pos + 2)
    (hline : extract_data_line B = some line)
    (hnotdone : trimBytes line ≠ "[DONE]".toList)
    (hparse : parse line = none) :
    drainBlocks parse (B ++ s) = drainBlocks parse s := by
  have hfind2 : find_double_newline (B ++ s) = some pos :=
    find_double_newline_append s hfind
  have hfuel : (B ++ s).length = (pos + 1 + s.length) + 1 := by
    simp only [List.length_append]
    omega
  have htake : (B ++ s).take (pos + 2) = B := by
    rw [← hlen]
    exact List.take_left B s
  have hdrop : (B ++ s).drop (pos + 2) = s := by
    rw [← hlen]
    exact List.drop_left B s
  rw [drainBlocks, hfuel]
  simp only [drainBlocksF, hfind2, htake, hdrop, hline, if_neg hnotdone,
    hparse]
  rw [drainBlocks]
  exact drainBlocksF_fuel parse (pos + 1 + s.length) s.length s
    (by omega) (Nat.le_refl _)

/-- Plain concatenation of a delta list. -/
def concatDeltas : List String → String
  | [] => ""
  | s :: rest => s ++ concatDeltas rest

/-- The select loop's final accumulation buffer is the initial buffer
followed by exactly the deltas its `chunk` events carried. -/
theorem runLoop_buffer (trace : List LoopEvent) :
    ∀ buf : String,
      (runLoop trace buf).2 =
        buf ++ concatDeltas (chunkDeltas (runLoop trace buf).1) := by
  induction trace with
  | nil =>
    intro buf
    simp [runLoop, chunkDeltas, concatDeltas]
  | cons ev rest ih =>
    intro buf
    cases ev with
    | cancelFires => simp [runLoop, chunkDeltas, concatDeltas]
    | delta s =>
      simp only [runLoop, chunkDeltas, List.filterMap_cons, concatDeltas]
      rw [← String.append_assoc]
      exact ih (buf ++ s)
    | streamErr e => simp [runLoop, chunkDeltas, concatDeltas]
    | streamEnd => simp [runLoop, chunkDeltas, concatDeltas]

/-- After a key's entry is removed, no token is registered under it. -/
theorem lookupToken_removeEntry (es : List (String × Nat)) (sid : String) :
    lookupToken (removeEntry es sid) sid = none := by
  induction es with
  | nil => rfl
  | cons e rest ih =>
    by_cases h : (e.1 == sid) = true
    · simp [removeEntry, List.filter_cons, h] at ih ⊢
      exact ih
    · simp only [removeEntry, List.filter_cons] at ih ⊢
      simp only [h, Bool.not_false, if_pos]
      simp only [lookupToken, List.find?_cons, h] at ih ⊢
      exact ih

/-- The delays slept by the retry loop starting at a given attempt: one
per contention failure, `200 * (attempt + 1)` each, stopping at the first
success, at the first non-contention error, or when retries run out. -/
theorem retryGo_delays {α : Type} (act : Nat → Except DbError α) :
    ∀ (retriesLeft attempt : Nat),
      ∃ n, n ≤ retriesLeft ∧
        (retryGo act attempt retriesLeft).2 =
          (List.range n).map (fun i => 200 * (attempt + i + 1)) ∧
        ∀ k, k < n → ∃ e, act (attempt + k) = .error e ∧ isLockErr e = true := by
  intro retriesLeft
  induction retriesLeft with
  | zero =>
    intro attempt
    refine ⟨0, Nat.le_refl 0, ?_, ?_⟩
    · cases h : act attempt with
      | ok v => simp [retryGo, h]
      | error e => simp [retryGo, h]
    · intro k hk
      omega
  | succ r ih =>
    intro attempt
    cases h : act attempt with
    | ok v =>
      refine ⟨0, Nat.zero_le _, ?_, ?_⟩
      · simp [retryGo, h]
      · intro k hk
        omega
    | error e =>
      by_cases hl : isLockErr e = true
      · rcases ih (attempt + 1) with ⟨n, hn, hds, hcon⟩
        refine ⟨n + 1, by omega, ?_, ?_⟩
        · simp only [retryGo, h, hl, if_pos]
          rw [hds, List.range_succ_eq_map]
          simp only [List.map_cons, List.map_map]
          refine List.cons_eq_cons.mpr ⟨by omega, ?_⟩
          apply List.map_congr_left
          intro i _
          simp only [Function.comp_apply]
          omega
        · intro k hk
          cases k with
          | zero => exact ⟨e, by simpa using h, hl⟩
          | succ j =>
            rcases hcon j (by omega) with ⟨e2, he2, hle2⟩
            refine ⟨e2, ?_, hle2⟩
            have : attempt + (j + 1) = attempt + 1 + j := by omega
            rw [this]
            exact he2
      · refine ⟨0, Nat.zero_le _, ?_, ?_⟩
        · simp [retryGo, h, hl]
        · intro k hk
          omega

/-! ## Concrete SSE fixtures

`deltaJson` is the parsed form of the data line `deltaLine` (an
OpenAI-style payload whose `choices[0].delta.content` is `"X"`), and
`parseFixture` is the per-line parse function that results: exactly that
line parses, and it yields the delta `"X"`. -/

def deltaJson : Json :=
  Json.obj [("choices",
    Json.arr [Json.obj [("delta", Json.obj [("content", Json.str "X")])]])]

def deltaLine : List Char :=
  "\x7b\"choices\":[\x7b\"delta\":\x7b\"content\":\"X\"\x7d\x7d]\x7d".toList

def doneBlock : List Char := "data: [DONE]\n\n".toList

def deltaBlock : List Char := "data: ".toList ++ deltaLine ++ "\n\n".toList

def parseFixture : List Char → Option String :=
  fun l => if l = deltaLine then parse_openai_delta (some deltaJson) else none

/-! ## Claim C2 -/

/-- C2: evaluation of the code at a failing input.  In `stream_openai` the
`[DONE]` check only breaks the inner drain loop, not the generator, so a
valid delta block sitting after the `[DONE]` block in the same flush still
has its delta emitted — by the end-of-input final extraction in the
single-chunk case, or by the next chunk iteration in the two-chunk case.
The claim requires that no delta be emitted for any block after
`[DONE]`. -/
theorem sse_delta_emitted_after_done :
    parseFixture deltaLine = some "X" ∧
    stream_openai_deltas parseFixture [doneBlock ++ deltaBlock] = ["X"] ∧
    stream_openai_deltas parseFixture [doneBlock, deltaBlock] = ["X"] := by
  refine ⟨by decide, by decide, by decide⟩

/-! ## Claim C3 -/

/-- C3: evaluation of the code at a failing input.  The same SSE bytes —
two `[DONE]` blocks followed by a delta block — delivered as one chunk
versus chunked at block boundaries produce different delta sequences
(`[]` versus `["X"]`), because the `[DONE]` break leaves buffered blocks
to be reprocessed per chunk arrival.  The claim requires the emitted
sequence to be identical for all chunkings of the same bytes. -/
theorem sse_chunking_dependent :
    List.flatten [doneBlock ++ doneBlock ++ deltaBlock] =
      List.flatten [doneBlock, doneBlock, deltaBlock] ∧
    stream_openai_deltas parseFixture [doneBlock ++ doneBlock ++ deltaBlock]
      = [] ∧
    stream_openai_deltas parseFixture [doneBlock, doneBlock, deltaBlock]
      = ["X"] := by
  refine ⟨by decide, by decide, by decide⟩

/-! ## Claim C7 -/

/-- C7: a complete SSE block whose data line fails to parse as JSON (and
is not the `[DONE]` sentinel) produces no delta and no error: draining it
leaves the machine exactly as if the block were absent, and subsequent
blocks are still processed.  `parse line = none` captures the failed
`serde_json::from_str`, whose `None` result `parse_openai_delta`
propagates (last conjunct). -/
theorem malformed_data_line_is_skipped
    (parse : List Char → Option String) (B line : List Char) (pos : Nat)
    (hfind : find_double_newline B = some pos)
    (hlen : B.length = pos + 2)
    (hline : extract_data_line B = some line)
    (hnotdone : trimBytes line ≠ "[DONE]".toList)
    (hparse : parse line = none) :
    (∀ s, drainBlocks parse (B ++ s) = drainBlocks parse s) ∧
    (∀ cs, runChunks parse (B :: cs) [] = runChunks parse cs []) ∧
    parse_openai_delta none = none := by
  have hmain : ∀ s, drainBlocks parse (B ++ s) = drainBlocks parse s :=
    fun s => drainBlocks_skips_unparsed_block parse B s line pos hfind hlen
      hline hnotdone hparse
  refine ⟨hmain, ?_, rfl⟩
  intro cs
  have hB : drainBlocks parse B = ([], []) := by
    have := hmain []
    rw [List.append_nil] at this
    exact this
  simp [runChunks, hB]

/-- Witness for C7 at the concrete malformed block `data: notjson\n\n`
under a parse function that rejects its data line. -/
theorem malformed_data_line_is_skipped_witness :
    (∀ s, drainBlocks parseFixture ("data: notjson\n\n".toList ++ s) =
        drainBlocks parseFixture s) ∧
    (∀ cs, runChunks parseFixture ("data: notjson\n\n".toList :: cs) [] =
        runChunks parseFixture cs []) ∧
    parse_openai_delta none = none :=
  malformed_data_line_is_skipped parseFixture "data: notjson\n\n".toList
    "notjson".toList 13 (by decide) (by decide) (by decide) (by decide)
    (by decide)

/-! ## Claim C4 -/

/-- C4 counterexample: a data line whose `choices[0].delta.content` is
present as the empty string.  The claim says a delta is emitted only when
the field is non-empty, but the code emits the empty delta: `as_str`
succeeds on `""` and `stream_openai` yields whatever `parse_openai_delta`
returns. -/
theorem parse_openai_delta_empty_content :
    openaiDeltaField (Json.obj [("choices",
        Json.arr [Json.obj [("delta",
          Json.obj [("content", Json.str "")])]])]) = some (Json.str "") ∧
    parse_openai_delta (some (Json.obj [("choices",
        Json.arr [Json.obj [("delta",
          Json.obj [("content", Json.str "")])]])])) = some "" :=
  ⟨rfl, rfl⟩

/-- C4 (amended): for a data line that parses as JSON `v`, a delta is
emitted iff `choices[0].delta.content` is present as a string — possibly
empty — and the delta equals exactly that string; when the field is
absent nothing is emitted, and a failed parse also emits nothing (there
is no error channel in either case). -/
theorem parse_openai_delta_characterization (v : Json) :
    (∀ s : String, parse_openai_delta (some v) = some s ↔
        openaiDeltaField v = some (Json.str s)) ∧
    (openaiDeltaField v = none → parse_openai_delta (some v) = none) ∧
    parse_openai_delta none = none := by
  have hdef : parse_openai_delta (some v) =
      (openaiDeltaField v).bind Json.asStr := rfl
  refine ⟨?_, ?_, rfl⟩
  · intro s
    rw [hdef]
    cases h : openaiDeltaField v with
    | none => simp
    | some j => cases j <;> simp [Json.asStr]
  · intro h
    rw [hdef, h]
    rfl

/-- Witness for C4: the fixture line with content `"X"` emits exactly the
delta `"X"`. -/
theorem parse_openai_delta_characterization_witness :
    parse_openai_delta (some deltaJson) = some "X" :=
  ((parse_openai_delta_characterization deltaJson).1 "X").mpr rfl

/-! ## Claim C5 -/

/-- C5: for the non-streaming-capable kinds (Claude, Gemini), `stream_chat`
yields exactly one delta equal to the full `chat_once` text when that text
is non-empty, zero deltas when it is empty, and never more than one
delta. -/
theorem stream_chat_degenerate (pt : String) (full : String)
    (ds : List String)
    (h : provider_kind pt = ProviderKind.Claude ∨
         provider_kind pt = ProviderKind.Gemini) :
    stream_chat pt (.ok full) ds = .ok (if full = "" then [] else [full]) ∧
    (full ≠ "" → stream_chat pt (.ok full) ds = .ok [full]) ∧
    (full = "" → stream_chat pt (.ok full) ds = .ok []) ∧
    (∀ l, stream_chat pt (.ok full) ds = .ok l → l.length ≤ 1) := by
  have hbody : stream_chat pt (.ok full) ds =
      .ok (if full = "" then [] else [full]) := by
    rcases h with h | h <;> · rw [stream_chat, h]
  refine ⟨hbody, ?_, ?_, ?_⟩
  · intro hne
    rw [hbody, if_neg hne]
  · intro he
    rw [hbody, if_pos he]
  · intro l hl
    rw [hbody] at hl
    by_cases he : full = ""
    · rw [if_pos he] at hl
      cases hl
      simp
    · rw [if_neg he] at hl
      cases hl
      simp

/-- Witness for C5 at a concrete Claude-kind provider type and a non-empty
reply. -/
theorem stream_chat_degenerate_witness :
    stream_chat "claude" (.ok "hello") ["x", "y"] = .ok ["hello"] :=
  (stream_chat_degenerate "claude" "hello" ["x", "y"]
    (Or.inl (by decide))).2.1 (by decide)

/-! ## Claim C6 -/

/-- C6: `cancel` on the registry never fails (the command always returns
`Ok`), signals and removes a registered entry, is a silent no-op on an
absent identifier, and is idempotent: a second `cancel` of the same
identifier leaves the state of the first. -/
theorem registry_cancel_idempotent (s : StreamRegistry) (sid : String) :
    (∀ t, lookupToken s.entries sid = some t →
        s.cancel sid = ⟨removeEntry s.entries sid, t :: s.cancelled⟩) ∧
    (lookupToken s.entries sid = none → s.cancel sid = s) ∧
    (s.cancel sid).cancel sid = s.cancel sid ∧
    dq_cancel_stream s sid = .ok (s.cancel sid) := by
  refine ⟨?_, ?_, ?_, rfl⟩
  · intro t ht
    rw [StreamRegistry.cancel, ht]
  · intro h
    rw [StreamRegistry.cancel, h]
  · cases h : lookupToken s.entries sid with
    | none =>
      have hcs : s.cancel sid = s := by rw [StreamRegistry.cancel, h]
      rw [hcs]
      exact hcs
    | some t =>
      have hcs : s.cancel sid =
          ⟨removeEntry s.entries sid, t :: s.cancelled⟩ := by
        rw [StreamRegistry.cancel, h]
      rw [hcs]
      simp [StreamRegistry.cancel, lookupToken_removeEntry]

/-- Witness for C6: cancelling a registered id signals its token and
removes the entry; a repeat cancel (the id is then already finished) is a
no-op. -/
theorem registry_cancel_idempotent_witness :
    (StreamRegistry.mk [("s1", 7)] []).cancel "s1" =
      ⟨removeEntry [("s1", 7)] "s1", 7 :: []⟩ ∧
    ((StreamRegistry.mk [("s1", 7)] []).cancel "s1").cancel "s1" =
      (StreamRegistry.mk [("s1", 7)] []).cancel "s1" :=
  ⟨(registry_cancel_idempotent ⟨[("s1", 7)], []⟩ "s1").1 7 (by decide),
   (registry_cancel_idempotent ⟨[("s1", 7)], []⟩ "s1").2.2.1⟩

/-! ## Claim C10 -/

/-- C10: a provider type that, lowercased ASCII-wise, is none of the five
recognized strings falls through to the OpenAI-compatible default, and
all three gateway operations then take the OpenAI code path — an
unrecognized kind is never an error. -/
theorem unrecognized_kind_defaults_to_openai (pt : String)
    (h1 : toAsciiLowercase pt ≠ "claude")
    (h2 : toAsciiLowercase pt ≠ "anthropic")
    (h3 : toAsciiLowercase pt ≠ "gemini")
    (h4 : toAsciiLowercase pt ≠ "google")
    (h5 : toAsciiLowercase pt ≠ "openai-response") :
    provider_kind pt = ProviderKind.OpenAI ∧
    chat_once_path pt = DispatchPath.openaiPath ∧
    stream_chat_path pt = DispatchPath.openaiPath ∧
    list_models_path pt = DispatchPath.openaiPath := by
  have hk : provider_kind pt = ProviderKind.OpenAI := by
    simp [provider_kind, h1, h2, h3, h4, h5]
  refine ⟨hk, ?_, ?_, ?_⟩
  · rw [chat_once_path, hk]
  · rw [stream_chat_path, hk]
  · rw [list_models_path, hk]

/-- Witness for C10 at the unrecognized provider type `Grok-Cloud`. -/
theorem unrecognized_kind_defaults_to_openai_witness :
    provider_kind "Grok-Cloud" = ProviderKind.OpenAI ∧
    chat_once_path "Grok-Cloud" = DispatchPath.openaiPath ∧
    stream_chat_path "Grok-Cloud" = DispatchPath.openaiPath ∧
    list_models_path "Grok-Cloud" = DispatchPath.openaiPath :=
  unrecognized_kind_defaults_to_openai "Grok-Cloud" (by decide) (by decide)
    (by decide) (by decide) (by decide)

/-! ## Claim C8 -/

/-- C8 counterexample: a response with a first candidate that has no
`content.parts` and a TOP-LEVEL `output` string field.  The claim's
fallback chain (`top-level output or text`) would give `"O"`, but the
code only consults `output` on the first candidate, so the result is the
empty string. -/
theorem gemini_toplevel_output_ignored :
    ((Json.obj [("candidates", Json.arr [Json.obj []]),
        ("output", Json.str "O")]).get "output").bind Json.asStr
      = some "O" ∧
    extract_gemini_content (Json.obj [("candidates",
        Json.arr [Json.obj []]), ("output", Json.str "O")]) = "" ∧
    ("" : String) ≠ "O" :=
  ⟨rfl, rfl, by decide⟩

/-- C8 (amended): when the first candidate's `content.parts` is an array,
the result is the concatenation, in order, of its string `text` parts;
when parts are absent the result falls back to the FIRST CANDIDATE's
`output` string field; otherwise to the top-level `text` string field;
when none of these is present the result is the empty string. -/
theorem gemini_content_characterization (v : Json) :
    (∀ c0 rest content parts,
        (v.get "candidates").bind Json.asArr = some (c0 :: rest) →
        c0.get "content" = some content →
        (content.get "parts").bind Json.asArr = some parts →
        extract_gemini_content v = geminiJoinParts parts) ∧
    (∀ c0 rest t,
        (v.get "candidates").bind Json.asArr = some (c0 :: rest) →
        (∀ content, c0.get "content" = some content →
            (content.get "parts").bind Json.asArr = none) →
        (c0.get "output").bind Json.asStr = some t →
        extract_gemini_content v = t) ∧
    (geminiNoCandidateText v = true →
        extract_gemini_content v = ((v.get "text").bind Json.asStr).getD "") := by
  refine ⟨?_, ?_, ?_⟩
  · intro c0 rest content parts h1 h2 h3
    simp only [extract_gemini_content, h1, List.head?_cons, h2, h3]
  · intro c0 rest t h1 hnp hout
    cases hc : c0.get "content" with
    | none => simp only [extract_gemini_content, h1, List.head?_cons, hc, hout]
    | some content =>
      have hparts := hnp content hc
      simp only [extract_gemini_content, h1, List.head?_cons, hc, hparts,
        hout]
  · intro h
    rw [geminiNoCandidateText] at h
    cases hcand : (v.get "candidates").bind Json.asArr with
    | none => simp only [extract_gemini_content, hcand]
    | some cands =>
      rw [hcand] at h
      cases cands with
      | nil => simp only [extract_gemini_content, hcand, List.head?_nil]
      | cons first restc =>
        rw [Bool.and_eq_true] at h
        rcases h with ⟨hcontentPart, houtNone⟩
        have hout : (first.get "output").bind Json.asStr = none :=
          Option.isNone_iff_eq_none.mp houtNone
        cases hc : first.get "content" with
        | none =>
          simp only [extract_gemini_content, hcand, List.head?_cons, hc,
            hout]
        | some content =>
          rw [hc] at hcontentPart
          have hparts : (content.get "parts").bind Json.asArr = none :=
            Option.isNone_iff_eq_none.mp hcontentPart
          simp only [extract_gemini_content, hcand, List.head?_cons, hc,
            hparts, hout]

/-- Witness for C8: a first candidate with two text parts concatenates
them in order. -/
theorem gemini_content_characterization_witness :
    extract_gemini_content (Json.obj [("candidates", Json.arr [Json.obj
        [("content", Json.obj [("parts", Json.arr
          [Json.obj [("text", Json.str "a")],
           Json.obj [("text", Json.str "b")]])])]])])
      = geminiJoinParts [Json.obj [("text", Json.str "a")],
          Json.obj [("text", Json.str "b")]] :=
  (gemini_content_characterization _).1 (Json.obj
      [("content", Json.obj [("parts", Json.arr
        [Json.obj [("text", Json.str "a")],
         Json.obj [("text", Json.str "b")]])])]) []
    (Json.obj [("parts", Json.arr [Json.obj [("text", Json.str "a")],
        Json.obj [("text", Json.str "b")]])])
    [Json.obj [("text", Json.str "a")], Json.obj [("text", Json.str "b")]]
    rfl rfl rfl

/-! ## Claim C9 -/

/-- C9: the lock-retry helper retries only on the SQLite busy/locked
contention condition, with at most 5 retries after the initial attempt
and linearly increasing backoff delays (200ms, 400ms, ...); any other
error is returned immediately with no retry (no delay slept). -/
theorem retry_on_locked_props {α : Type} (act : Nat → Except DbError α) :
    (∀ e, act 0 = .error e → isLockErr e = false →
        retry_on_locked act = (.error e, [])) ∧
    (retry_on_locked act).2.length ≤ 5 ∧
    (∃ n, n ≤ 5 ∧ (retry_on_locked act).2 =
        (List.range n).map (fun i => 200 * (i + 1))) ∧
    (∀ k, k < (retry_on_locked act).2.length →
        ∃ e, act k = .error e ∧ isLockErr e = true) := by
  obtain ⟨n, hn, hds, hcon⟩ := retryGo_delays act 5 0
  have hlen : (retry_on_locked act).2.length = n := by
    rw [retry_on_locked, hds]
    simp
  refine ⟨?_, ?_, ⟨n, hn, ?_⟩, ?_⟩
  · intro e h he
    rw [retry_on_locked, retryGo, h]
    simp [he]
  · omega
  · rw [retry_on_locked, hds]
    apply List.map_congr_left
    intro i _
    omega
  · intro k hk
    rw [hlen] at hk
    rcases hcon k hk with ⟨e, he, hle⟩
    rw [Nat.zero_add] at he
    exact ⟨e, he, hle⟩

/-- Witness for C9: a non-contention persistence error is surfaced
immediately with no retry delay. -/
theorem retry_on_locked_props_witness :
    retry_on_locked (fun _ => (.error (DbError.otherError 7) :
        Except DbError Int)) = (.error (DbError.otherError 7), []) :=
  (retry_on_locked_props (fun _ => (.error (DbError.otherError 7) :
      Except DbError Int))).1 (DbError.otherError 7) rfl rfl

/-! ## Claim C1 -/

/-- The select loop never emits the `end` event itself. -/
theorem evEnd_not_in_runLoop (trace : List LoopEvent) :
    ∀ buf : String, Ev.evEnd ∉ (runLoop trace buf).1 := by
  induction trace with
  | nil => intro buf; simp [runLoop]
  | cons ev rest ih =>
    intro buf
    cases ev with
    | cancelFires => simp [runLoop]
    | delta s =>
      simp only [runLoop, List.mem_cons]
      rintro (h | h)
      · exact Ev.noConfusion h
      · exact ih (buf ++ s) h
    | streamErr e => simp [runLoop]
    | streamEnd => simp [runLoop]

/-- The session body never emits the `end` event itself. -/
theorem evEnd_not_in_runSession (cfg : StartCfg) :
    Ev.evEnd ∉ (runSession cfg).1 := by
  cases cfg with
  | streamOk trace => exact evEnd_not_in_runLoop trace ""
  | streamFail c fb =>
    cases fb with
    | ok full =>
      by_cases hc : c = true
      · simp [runSession, hc]
      · by_cases hf : full = "" <;>
          simp [runSession, hc, hf]
    | err e2 => simp [runSession]
  | direct c res =>
    cases res with
    | ok full =>
      by_cases hc : c = true
      · simp [runSession, hc]
      · by_cases hf : full = "" <;>
          simp [runSession, hc, hf]
    | err e => simp [runSession]

/-- The session body's final buffer is exactly the concatenation of the
deltas its `chunk` events carried. -/
theorem runSession_buffer (cfg : StartCfg) :
    (runSession cfg).2 = concatDeltas (chunkDeltas (runSession cfg).1) := by
  cases cfg with
  | streamOk trace =>
    have := runLoop_buffer trace ""
    simpa using this
  | streamFail c fb =>
    cases fb with
    | ok full =>
      by_cases hc : c = true
      · simp [runSession, hc, chunkDeltas, concatDeltas]
      · by_cases hf : full = "" <;>
          simp [runSession, hc, hf, chunkDeltas, concatDeltas]
    | err e2 => simp [runSession, chunkDeltas, concatDeltas]
  | direct c res =>
    cases res with
    | ok full =>
      by_cases hc : c = true
      · simp [runSession, hc, chunkDeltas, concatDeltas]
      · by_cases hf : full = "" <;>
          simp [runSession, hc, hf, chunkDeltas, concatDeltas]
    | err e => simp [runSession, chunkDeltas, concatDeltas]

/-- C1: on every exit path of the spawned streaming task — cancellation,
stream error, normal completion, non-streaming call, or fallback —
finalization happens exactly once: exactly one assistant turn is
persisted, whose text is the concatenation of all emitted deltas, iff
that concatenation is non-empty (none otherwise); the session's registry
entry is removed; and exactly one `end` event is emitted, last. -/
theorem session_finalization (cfg : StartCfg) (reg : StreamRegistry)
    (sid : String) :
    (dq_send_chat_stream_task cfg reg sid).persisted =
      (if concatDeltas (chunkDeltas
            (dq_send_chat_stream_task cfg reg sid).events) = ""
       then []
       else [concatDeltas (chunkDeltas
              (dq_send_chat_stream_task cfg reg sid).events)]) ∧
    (dq_send_chat_stream_task cfg reg sid).events.count Ev.evEnd = 1 ∧
    (dq_send_chat_stream_task cfg reg sid).events.getLast?
      = some Ev.evEnd ∧
    (dq_send_chat_stream_task cfg reg sid).registryAfter
      = reg.remove sid := by
  have hdeltas : chunkDeltas ((runSession cfg).1 ++ [Ev.evEnd])
      = chunkDeltas (runSession cfg).1 := by
    simp [chunkDeltas]
  refine ⟨?_, ?_, ?_, rfl⟩
  · simp only [dq_send_chat_stream_task, hdeltas, ← runSession_buffer cfg]
  · simp only [dq_send_chat_stream_task, List.count_append]
    rw [List.count_eq_zero.mpr (evEnd_not_in_runSession cfg)]
    rfl
  · simp only [dq_send_chat_stream_task]
    exact List.getLast?_concat _
